import Mathlib

/-!
Verification development for the `validator` repository (src/lib/validator.js and
src/lib/validatorformats.js): a shallow embedding of the recursive rule-evaluation
engine, followed by theorems about its iteration strategies, sibling state stack,
constraint evaluators, conditional rule resolver and the public entry point.

Modelling conventions:
- JSON values are the inductive `Value` (numbers are `Int`; the host language's
  floating point values are outside the scope of the claims).
- The host value `undefined` is represented by `Option Value` being `none`.
- A thrown `Err.TrackValidationError` is `VErr.validation key kind`; a thrown plain
  `Error` (a configuration error) is `VErr.fatal msg`; a host `TypeError` (property
  access on `undefined`) is `VErr.typeError msg`.  Human-readable message bodies are
  abstracted into the structured `ErrKind`; the `key` path strings are kept exact.
- The recursion of `processRule` / `processChildRules` descends through the rule
  tree; the embedding indexes it by a fuel parameter (`VErr.outOfFuel` is the
  artifact outcome that a real run never produces for fuel exceeding the input
  size), so that every definition stays a computable structural recursion.
-/

/-- A JSON-like value tree: scalar (number / string / boolean), ordered sequence,
or keyed mapping with insertion order preserved. -/
inductive Value : Type where
  | num (n : Int)
  | str (s : String)
  | bool (b : Bool)
  | arr (elems : List Value)
  | obj (fields : List (String × Value))

/-- `Array.isArray(value)`. -/
def isArrayV : Value → Bool
  | .arr _ => true
  | _ => false

/-- `typeof value === 'object'` (true for arrays and objects; the model has no `null`). -/
def jsTypeofObject : Value → Bool
  | .arr _ => true
  | .obj _ => true
  | _ => false

/-- `value.length`: defined for strings (character count) and arrays, `undefined`
(`none`) for every other value. -/
def jsLength : Value → Option Nat
  | .str s => some s.length
  | .arr l => some l.length
  | _ => none

/-- `value.length` coerced into the type used by the `fixedChildLength` slot of a
stack frame (which also stores the sentinel `-1`). -/
def jsLengthInt (v : Value) : Option Int :=
  (jsLength v).map (fun n => (n : Int))

/-- Lexicographic comparison of two character sequences by code point (the
host compares strings by UTF-16 code unit; the two orders agree on the basic
multilingual plane, which covers every string a claim touches). -/
def charListLt : List Char → List Char → Bool
  | [], [] => false
  | [], _ :: _ => true
  | _ :: _, [] => false
  | a :: as, b :: bs =>
      if a.toNat < b.toNat then true
      else if b.toNat < a.toNat then false
      else charListLt as bs

/-- Host `a < b` on strings. -/
def jsStrLt (a b : String) : Bool := charListLt a.toList b.toList

/-- The host `>` comparison, for the value shapes the rules compare: two numbers
numerically, two strings lexicographically.  The host's coercing comparisons
between other shapes (which the rule trees of the claims never produce) are
modelled as `false`. -/
def jsGt : Value → Value → Bool
  | .num a, .num b => a > b
  | .str a, .str b => jsStrLt b a
  | _, _ => false

/-- The host `<` comparison; same scope as `jsGt`. -/
def jsLt : Value → Value → Bool
  | .num a, .num b => a < b
  | .str a, .str b => jsStrLt a b
  | _, _ => false

/-- The host `===` comparison.  Scalars compare by value; two container values
compare by reference in the host, and the engine only ever compares distinct
sibling containers, so containers are modelled as never strictly equal. -/
def jsStrictEq : Value → Value → Bool
  | .num a, .num b => a == b
  | .str a, .str b => a == b
  | .bool a, .bool b => a == b
  | _, _ => false

/-- Host `String(x)` for the scalar shapes that can reach an error message in the
embedded converters.  Containers are abstracted (`[object Object]`); the host
would join array elements, but no claim observes such a message. -/
def jsToString : Value → String
  | .num n => toString n
  | .str s => s
  | .bool b => if b then ("true") else ("false")
  | .arr _ => ("[object Object]")
  | .obj _ => ("[object Object]")

mutual
/-- A Rule Node (`validator.js` rule object).  Field order:
`required, format, allowedValues, range, minLength, maxLength, length,
fixedChildLength, ascending, descending, noRepeat, condition, childRules`. -/
inductive Rule : Type where
  | mk : Bool → Option String → Option (List Value) → Option (Value × Value) →
      Option Nat → Option Nat → Option Nat →
      Bool → Bool → Bool → Bool →
      Option String → Option (List (String × RuleEntry)) → Rule

/-- An entry of a Rule Map: a single Rule Node, or a Conditional Rule Alternative
List (a JSON array of Rule Nodes). -/
inductive RuleEntry : Type where
  | single : Rule → RuleEntry
  | alts : List Rule → RuleEntry
end

/-- A Rule Map: rule-name to entry, in declaration order. -/
abbrev RuleMap := List (String × RuleEntry)

def Rule.required : Rule → Bool
  | .mk b _ _ _ _ _ _ _ _ _ _ _ _ => b

def Rule.format : Rule → Option String
  | .mk _ f _ _ _ _ _ _ _ _ _ _ _ => f

def Rule.allowedValues : Rule → Option (List Value)
  | .mk _ _ a _ _ _ _ _ _ _ _ _ _ => a

def Rule.range : Rule → Option (Value × Value)
  | .mk _ _ _ r _ _ _ _ _ _ _ _ _ => r

def Rule.minLength : Rule → Option Nat
  | .mk _ _ _ _ m _ _ _ _ _ _ _ _ => m

def Rule.maxLength : Rule → Option Nat
  | .mk _ _ _ _ _ m _ _ _ _ _ _ _ => m

def Rule.length : Rule → Option Nat
  | .mk _ _ _ _ _ _ l _ _ _ _ _ _ => l

def Rule.fixedChildLength : Rule → Bool
  | .mk _ _ _ _ _ _ _ f _ _ _ _ _ => f

def Rule.ascending : Rule → Bool
  | .mk _ _ _ _ _ _ _ _ a _ _ _ _ => a

def Rule.descending : Rule → Bool
  | .mk _ _ _ _ _ _ _ _ _ d _ _ _ => d

def Rule.noRepeat : Rule → Bool
  | .mk _ _ _ _ _ _ _ _ _ _ n _ _ => n

def Rule.condition : Rule → Option String
  | .mk _ _ _ _ _ _ _ _ _ _ _ c _ => c

def Rule.childRules : Rule → Option RuleMap
  | .mk _ _ _ _ _ _ _ _ _ _ _ _ c => c

/-- The empty rule object `{}` (every constraint absent). -/
def emptyRule : Rule :=
  .mk false none none none none none none false false false false none none

/-- `var wildcardRuleName = '*'` from the source. -/
def wildcardRuleName : String := "*"

/-- Property lookup on an insertion-ordered object literal. -/
def lookupAssoc {α : Type} : List (String × α) → String → Option α
  | [], _ => none
  | (k, v) :: rest, key => if k == key then some v else lookupAssoc rest key

/-- `obj[key] = v` on an object literal: replace the first binding of `key`,
append a fresh one otherwise. -/
def setAssoc {α : Type} : List (String × α) → String → α → List (String × α)
  | [], key, v => [(key, v)]
  | (k, w) :: rest, key, v =>
      if k == key then (k, v) :: rest else (k, w) :: setAssoc rest key v

/-- Write to a property that is already present (the engine only writes back to
positions whose value it has just read, so the append case of `setAssoc` is
unreachable; this variant makes that invariant syntactic). -/
def setIfPresent : List (String × Value) → String → Value → List (String × Value)
  | [], _, _ => []
  | (k, w) :: rest, key, v =>
      if k == key then (k, v) :: rest else (k, w) :: setIfPresent rest key v

/-- Structured stand-ins for the human-readable reasons of the source's
`Err.TrackValidationError` messages and `Error` messages. -/
inductive ErrKind : Type where
  | requiredMissing
  | formatConvert (reason : String)
  | formatInvalid (format : String)
  | notAllowed
  | outOfRange
  | minLen
  | maxLen
  | exactLen
  | fixedLenMismatch
  | breaksAscending
  | breaksDescending
  | repeatsSibling
  | notObjectOrArray
  | invalidCondition (name : String)
deriving DecidableEq, Repr

/-- The two error classes of the source plus the host `TypeError` and the fuel
artifact: `validation` is `Err.TrackValidationError` (a per-value data error),
`fatal` is a plain `new Error(...)` (a configuration error). -/
inductive VErr : Type where
  | validation (key : String) (kind : ErrKind)
  | fatal (msg : String)
  | typeError (msg : String)
  | outOfFuel
deriving DecidableEq, Repr

/-- The format registry interface (`validatorformats.js`): named validators and
named converters.  A converter throws a descriptive string on bad data. -/
structure Formats : Type where
  validators : String → Option (Value → Bool)
  converters : String → Option (Value → Except String Value)

/-- Host `parseInt(s, 10)`: skip leading whitespace, optional sign, then the
longest digit run; `NaN` (here `none`) when no digit follows. -/
def jsParseInt (s : String) : Option Int :=
  let t := s.toList.dropWhile Char.isWhitespace
  let signAndRest : Int × List Char :=
    match t with
    | c :: cs =>
        if c.toNat == 45 then (-1, cs)        -- the sign character -
        else if c.toNat == 43 then (1, cs)    -- the sign character +
        else (1, c :: cs)
    | [] => (1, [])
  let digits := signAndRest.2.takeWhile Char.isDigit
  if digits.isEmpty then none
  else some (signAndRest.1 * ((digits.foldl (fun acc c => acc * 10 + (c.toNat - 48)) 0 : Nat) : Int))

/-- `validators.number` from `validatorformats.js`. -/
def vNumber : Value → Bool
  | .num _ => true
  | _ => false

/-- `converters.number`: a number passes through, a number-string parses via
`parseInt(s, 10)`, everything else throws.  After a failed parse the host message
stringifies `NaN`. -/
def convNumber (v : Value) : Except String Value :=
  match v with
  | .num n => .ok (.num n)
  | .str _ =>
      match v with
      | .str s =>
          match jsParseInt s with
          | some n => .ok (.num n)
          | none => .error (("NaN is not a number or a number string"))
      | _ => .error (("NaN is not a number or a number string"))
  | w => .error (jsToString w ++ (" is not a number or a number string"))

/-- `converters.boolean`: `!!value`. -/
def convBoolean (v : Value) : Except String Value :=
  match v with
  | .bool b => .ok (.bool b)
  | .num n => .ok (.bool (n != 0))
  | .str s => .ok (.bool (s != ("")))
  | _ => .ok (.bool true)

/-- `validators.geo`. -/
def vGeo : Value → Bool
  | .num n => -180 ≤ n && n ≤ 180
  | _ => false

/-- `validators.timestamp`. -/
def vTimestamp : Value → Bool
  | .num n => 0 ≤ n
  | _ => false

/-- `validators.year` / `month` / `day`. -/
def vYear : Value → Bool
  | .num n => 2000 ≤ n && n ≤ 2099
  | _ => false

def vMonth : Value → Bool
  | .num n => 1 ≤ n && n ≤ 12
  | _ => false

def vDay : Value → Bool
  | .num n => 1 ≤ n && n ≤ 31
  | _ => false

/-- `converters.geo`: convert to number first, then validate the geo range. -/
def convGeo (v : Value) : Except String Value := do
  let n ← convNumber v
  if vGeo n then pure n else .error (("geo values should be numbers between -180 and 180"))

/-- `converters.timestamp`: number conversion then `Math.round` (the identity on
the integer model) then the timestamp validator. -/
def convTimestamp (v : Value) : Except String Value := do
  let n ← convNumber v
  if vTimestamp n then pure n else .error (("timestamp values should be positive numbers"))

def convYear (v : Value) : Except String Value := do
  let n ← convNumber v
  if vYear n then pure n else .error (("year should be between 2000 and 2099"))

def convMonth (v : Value) : Except String Value := do
  let n ← convNumber v
  if vMonth n then pure n else .error (("month should be between 1 and 12"))

def convDay (v : Value) : Except String Value := do
  let n ← convNumber v
  if vDay n then pure n else .error (("day should be between 1 and 31"))

/-- The registry of `validatorformats.js`, for the formats whose definitions are
host-independent.  `date`, `uuid`, `uuidnodashes`, `hex`, `email` and
`iso8601DateSubset` depend on `Date.parse` / host regular expressions and are not
named by any claim; their lookups are `none` here.  `converters.altitude` calls
the nonexistent `validators.altitude` and is likewise left out. -/
def srcFormats : Formats where
  validators := fun name =>
    match name with
    | "string" => some (fun v => match v with | .str _ => true | _ => false)
    | "object" => some (fun v => match v with | .obj _ => true | _ => false)
    | "array" => some isArrayV
    | "number" => some vNumber
    | "boolean" => some (fun v => match v with | .bool _ => true | _ => false)
    | "geo" => some vGeo
    | "timestamp" => some vTimestamp
    | "year" => some vYear
    | "month" => some vMonth
    | "day" => some vDay
    | _ => none
  converters := fun name =>
    match name with
    | "number" => some convNumber
    | "boolean" => some convBoolean
    | "geo" => some convGeo
    | "timestamp" => some convTimestamp
    | "year" => some convYear
    | "month" => some convMonth
    | "day" => some convDay
    | _ => none

/-- The options recognized by `validate` (the `debug` flag only logs and has no
observable effect on the outcome, so it is not carried). -/
structure Options : Type where
  convert : Bool := false
  filter : Bool := false
  conditions : String → Option (Value → Option Value → Bool) := fun _ => none

/-- JS truthiness of an optional string field (absent or empty means falsy). -/
def jsTruthyOptStr : Option String → Bool
  | some s => s != ("")
  | none => false

/-- JS truthiness of an optional numeric field (absent or `0` means falsy). -/
def jsTruthyOptNat : Option Nat → Bool
  | some n => n != 0
  | none => false

/-- JS truthiness of the `fixedChildLength` frame slot (`undefined` and `0` are
falsy; the pending sentinel `-1` and every sealed nonzero length are truthy). -/
def jsTruthyOptInt : Option Int → Bool
  | some n => n != 0
  | none => false

/-- One Sibling State Frame: pushed per Rule Map level.  `fixedChildLength` is
`undefined | -1 (pending) | sealed length` and `prevChildValues` maps a rule-name
to the last value checked against the ordering flags at this level's parent. -/
structure Frame : Type where
  fixedChildLength : Option Int := none
  prevChildValues : List (String × Value) := []

def Frame.empty : Frame := {}

/-- The ParentStack.  The head of the list is the top of the stack (the frame the
source's `peek()` with offset 0 returns). -/
abbrev Stack := List Frame

/-- `ParentStack.prototype.enableFixedChildLength`: set the top frame's
`fixedChildLength` slot to the pending sentinel `-1`. -/
def enableFixedChildLength : Stack → Stack
  | f :: rest => { f with fixedChildLength := some (-1) } :: rest
  | [] => []

/-- One of the three identical blocks of
`ParentStack.prototype.processSortingRules` (they differ only in the guarding
flag, the violating comparison and the reported reason): when the flag is set,
fail if a previously recorded value exists and the comparison flags it,
otherwise record the current value under the rule-name. -/
def sortCheck (flag : Bool) (bad : Value → Value → Bool) (kind : ErrKind)
    (key ruleName : String) (prev : Option Value) (value : Value)
    (pcv : List (String × Value)) : Except VErr (List (String × Value)) :=
  if flag then
    match prev with
    | some p =>
        if bad p value then .error (.validation key kind)
        else .ok (setAssoc pcv ruleName value)
    | none => .ok (setAssoc pcv ruleName value)
  else .ok pcv

/-- `ParentStack.prototype.processSortingRules`: evaluate the
`ascending` / `descending` / `noRepeat` flags of `rule` for `value` against the
value previously recorded under `ruleName` in the frame one level up (`peek(1)`),
updating the recorded value after each check that passes.  All three checks
compare against the previously recorded value read once at entry. -/
def processSortingRules (key : String) (rule : Rule) (ruleName : String)
    (value : Value) (stack : Stack) : Except VErr Stack :=
  match stack with
  | top :: parentInfo :: rest => do
      let prev := lookupAssoc parentInfo.prevChildValues ruleName
      let pcv := parentInfo.prevChildValues
      let pcv ← sortCheck rule.ascending jsGt (.breaksAscending) key ruleName prev value pcv
      let pcv ← sortCheck rule.descending jsLt (.breaksDescending) key ruleName prev value pcv
      let pcv ← sortCheck rule.noRepeat jsStrictEq (.repeatsSibling) key ruleName prev value pcv
      pure (top :: { parentInfo with prevChildValues := pcv } :: rest)
  | _ => Except.error (.typeError ("cannot read prevChildValues of undefined"))

/-- `ParentStack.prototype.processSiblingRules`: with no frame one level up,
return silently; otherwise run the fixed-child-length check against the frame one
level up (sealing the pending sentinel to this value's length, or comparing
lengths) and then the sorting rules. -/
def processSiblingRules (key : String) (rule : Rule) (ruleName : String)
    (value : Value) (stack : Stack) : Except VErr Stack :=
  match stack with
  | top :: parentInfo :: rest =>
      if jsTruthyOptInt parentInfo.fixedChildLength then
        if parentInfo.fixedChildLength == some (-1) then
          let parentInfo' := { parentInfo with fixedChildLength := jsLengthInt value }
          processSortingRules key rule ruleName value (top :: parentInfo' :: rest)
        else if parentInfo.fixedChildLength != jsLengthInt value then
          Except.error (.validation key (.fixedLenMismatch))
        else
          processSortingRules key rule ruleName value (top :: parentInfo :: rest)
      else
        processSortingRules key rule ruleName value (top :: parentInfo :: rest)
  | other => pure other

/-- `arrayContains(value, allowedValues)`: `some` entry is `===` to the value. -/
def arrayContains (value : Value) (allowedValues : List Value) : Bool :=
  allowedValues.any (fun allowedValue => jsStrictEq allowedValue value)

/-- `isRequired`: throw when the value is `undefined` (the caller guards on
`rule.required`). -/
def isRequired (value : Option Value) (key : String) : Except VErr Unit :=
  if value.isNone then Except.error (.validation key (.requiredMissing)) else pure ()

/-- `isCorrectFormat`: with conversion enabled and a converter registered, the
converter's output replaces the value (a thrown string becomes a validation
error); otherwise a registered validator must accept the raw value; an
unregistered format name is a fatal configuration error.  The second component
records whether a converter produced the result. -/
def isCorrectFormat (fmts : Formats) (opts : Options) (rule : Rule) (value : Value)
    (key : String) : Except VErr (Value × Bool) :=
  match rule.format with
  | none => .ok (value, false)
  | some format =>
      let validator := fmts.validators format
      let converter := if opts.convert then fmts.converters format else none
      match converter with
      | some c =>
          match c value with
          | .ok convertedValue => .ok (convertedValue, true)
          | .error e => .error (.validation key (.formatConvert e))
      | none =>
          match validator with
          | some f =>
              if f value then .ok (value, false)
              else .error (.validation key (.formatInvalid format))
          | none => .error (.fatal (format ++ (" is not a valid format at location ") ++ key))

/-- `isAllowedValue` (the caller guards on the truthiness of `rule.allowedValues`). -/
def isAllowedValue (rule : Rule) (value : Value) (key : String) : Except VErr Unit :=
  if arrayContains value (rule.allowedValues.getD []) then pure ()
  else Except.error (.validation key (.notAllowed))

/-- `isInRange`: `value < range[0] || value > range[1]` fails. -/
def isInRange (rule : Rule) (value : Value) (key : String) : Except VErr Unit :=
  match rule.range with
  | some (lo, hi) =>
      if jsLt value lo || jsGt value hi then Except.error (.validation key (.outOfRange))
      else pure ()
  | none => pure ()

/-- `isMinLength`: `value.length < minLength` fails; a value without a length
(`undefined < n` is false in the host) passes. -/
def isMinLength (rule : Rule) (value : Value) (key : String) : Except VErr Unit :=
  match jsLength value with
  | some l => if l < rule.minLength.getD 0 then Except.error (.validation key (.minLen)) else pure ()
  | none => pure ()

/-- `isMaxLength`: `value.length > maxLength` fails; a length-less value passes. -/
def isMaxLength (rule : Rule) (value : Value) (key : String) : Except VErr Unit :=
  match jsLength value with
  | some l => if l > rule.maxLength.getD 0 then Except.error (.validation key (.maxLen)) else pure ()
  | none => pure ()

/-- `isLength`: `value.length !== length` fails (so it also fails for a
length-less value, since `undefined !== n`). -/
def isLength (rule : Rule) (value : Value) (key : String) : Except VErr Unit :=
  if (jsLength value) != rule.length then Except.error (.validation key (.exactLen)) else pure ()

/-- `applyFilterForObject`: delete every key of the object that the Rule Map does
not name. -/
def applyFilterForObject (obj : Value) (rules : RuleMap) : Value :=
  match obj with
  | .obj fields => .obj (fields.filter (fun p => (lookupAssoc rules p.1).isSome))
  | v => v

/-- The scan inside `selectConditionalRule`'s `rule.some(...)`: skip entries whose
`condition` is falsy; an entry whose condition name has no registered predicate
throws `Err.TrackValidationError('invalid condition name ...')`; the first entry
whose predicate accepts `(parentValue, value)` is selected. -/
def findCondition (opts : Options) (value : Option Value) (parentValue : Value)
    (key : String) : List Rule → Except VErr (Option Rule)
  | [] => .ok none
  | r :: rest =>
      if jsTruthyOptStr r.condition then
        let name := r.condition.getD ("")
        match opts.conditions name with
        | none => .error (.validation key (.invalidCondition name))
        | some cond =>
            if cond parentValue value then .ok (some r)
            else findCondition opts value parentValue key rest
      else findCondition opts value parentValue key rest

/-- `selectConditionalRule`: a single Rule Node is returned unchanged; for an
alternative list the first condition whose predicate accepts wins, otherwise the
first entry without a `condition` string (the "else" alternative), otherwise the
empty rule. -/
def selectConditionalRule (opts : Options) (entry : RuleEntry) (value : Option Value)
    (parentValue : Value) (key : String) : Except VErr Rule :=
  match entry with
  | .single r => .ok r
  | .alts rs =>
      let elseConditions := rs.filter (fun r => r.condition.isNone)
      match findCondition opts value parentValue key rs with
      | .error e => .error e
      | .ok (some r) => .ok r
      | .ok none =>
          match elseConditions with
          | [] => .ok emptyRule
          | r :: _ => .ok r

/-- The position a child value is read from during one Rule Map application:
an array index or an object property name. -/
inductive ItemKey : Type where
  | idx (i : Nat)
  | prop (name : String)
deriving DecidableEq, Repr

/-- One (position, applicable rule-name) pair produced by an iteration strategy.
The rule-name is `none` when the source indexes past the end of its rule-name
array (host `undefined`). -/
abbrev Item := ItemKey × Option String

/-- Property / index read on the parent value (`undefined` when out of range,
missing, or the parent is a scalar). -/
def readVal : Value → ItemKey → Option Value
  | .arr elems, .idx i => elems[i]?
  | .obj fields, .prop k => lookupAssoc fields k
  | _, _ => none

/-- `parentValue[valueName] = v`.  Writes happen only at positions whose value the
engine has just read (see `setIfPresent`); writes onto a scalar parent are the
host's silent no-op. -/
def writeVal : Value → ItemKey → Value → Value
  | .arr elems, .idx i, v => .arr (elems.set i v)
  | .obj fields, .prop k, v => .obj (setIfPresent fields k v)
  | p, _, _ => p

/-- The error-path `key` for one child, as built in `processChildRules`'s
callback: array traversal appends `[index]`, or `[index,rule=name]` when the Rule
Map has more than one entry; object traversal joins with a dot. -/
def mkKey (parentKey : String) (hasMultipleRules : Bool) (ik : ItemKey)
    (ruleName : Option String) : String :=
  match ik with
  | .idx i =>
      if hasMultipleRules then
        parentKey ++ ("[") ++ toString i ++ (",rule=") ++
          (match ruleName with | some rn => rn | none => ("undefined")) ++ ("]")
      else
        parentKey ++ ("[") ++ toString i ++ ("]")
  | .prop name =>
      parentKey ++ (if parentKey.length != 0 then (".") else ("")) ++ name

/-- `iterateObjectWithRules` (mapping, no wildcard): one pair per rule-name in
declaration order; the position is that same name. -/
def iterateObjectWithRules (rules : RuleMap) : List Item :=
  rules.map (fun p => (.prop p.1, some p.1))

/-- `iterateObjectWithRulesWildcard` (mapping, with wildcard): every explicitly
named rule first (in declaration order), then every object key not covered by an
explicit rule-name, matched to the wildcard. -/
def iterateObjectWithRulesWildcard (objKeys : List String) (rules : RuleMap) : List Item :=
  let ruleNames := rules.map Prod.fst
  let explicitNames := ruleNames.filter (fun name => name != wildcardRuleName)
  let implicitNames := objKeys.filter (fun name => !(explicitNames.contains name))
  (explicitNames ++ implicitNames).map (fun name =>
    (.prop name, some (if (lookupAssoc rules name).isSome then name else wildcardRuleName)))

/-- `iterateArrayWithRules` (sequence, no wildcard): iterate
`max(array.length, ruleNames.length)` positions, rule-names cycling as
`i % ruleNames.length`. -/
def iterateArrayWithRules (arrayLen : Nat) (rules : RuleMap) : List Item :=
  let ruleNames := rules.map Prod.fst
  let total := max arrayLen ruleNames.length
  (List.range total).map (fun i => (.idx i, ruleNames[i % ruleNames.length]?))

/-- `ruleNames.indexOf(name)`: first index or `-1`. -/
def jsIndexOf (l : List String) (s : String) : Int :=
  match l.findIdx? (fun x => x == s) with
  | some i => (i : Int)
  | none => -1

/-- `iterateArrayWithRulesWildcard` (sequence, with wildcard), exactly as in the
source: `total = max(array.length, ruleNames.length - (wildcard required ? 0 : 1))`,
`wildcardEndIndex = total - (ruleNames.length - 1 - wildcardIndex) - 1`, and for
each position `i`: past `wildcardEndIndex` the rule index is
`i - wildcardEndIndex + 1`, between `wildcardIndex` and `wildcardEndIndex` it is
`wildcardIndex`, before `wildcardIndex` it is `i`.  The arithmetic is over `Int`
(the host's numbers), and an index outside the rule-name array yields `none`
(host `undefined`). -/
def iterateArrayWithRulesWildcard (arrayLen : Nat) (rules : RuleMap) : List Item :=
  let ruleNames := rules.map Prod.fst
  let wildcardRequired :=
    match lookupAssoc rules wildcardRuleName with
    | some (.single r) => r.required
    | _ => false
  let maybeRequiredRuleCount : Int :=
    (ruleNames.length : Int) - (if wildcardRequired then 0 else 1)
  let total : Int := max (arrayLen : Int) maybeRequiredRuleCount
  let wildcardIndex : Int := jsIndexOf ruleNames wildcardRuleName
  let nonWildcardRulesAtEnd : Int := (ruleNames.length : Int) - 1 - wildcardIndex
  let wildcardEndIndex : Int := total - nonWildcardRulesAtEnd - 1
  (List.range total.toNat).map (fun (i : Nat) =>
    let ruleIndex : Int :=
      if (i : Int) > wildcardEndIndex then (i : Int) - wildcardEndIndex + 1
      else if (i : Int) ≥ wildcardIndex ∧ (i : Int) ≤ wildcardEndIndex then wildcardIndex
      else (i : Int)
    (.idx i, if ruleIndex < 0 then none else ruleNames[ruleIndex.toNat]?))

/-- Whether a Rule Map carries a wildcard entry. -/
def hasWildcardRM (rules : RuleMap) : Bool :=
  (lookupAssoc rules wildcardRuleName).isSome

/-- The rule entry for an iteration-produced rule-name (`none` both for the host
`undefined` rule-name and for a name the map does not carry). -/
def lookupRule (rules : RuleMap) : Option String → Option RuleEntry
  | some ruleName => lookupAssoc rules ruleName
  | none => none

/-- The triple returned by one `processRule` application: the converted value (or
`undefined` when the rule was skipped as not-required-and-absent), the raw value
after any in-place mutation by nested `childRules` processing (the same host
object the parent still references), and the stack after the sibling checks. -/
abbrev PRResult := Option Value × Option Value × Stack

/-- The body of `processRule`, parameterized by the next level of
`processChildRules`.  Mirrors the source order: `required`; early return on an
undefined value; `format` (with conversion); `allowedValues`; `range`;
`minLength`; `maxLength`; `length`; `fixedChildLength` enabling; the sibling
checks one level up; recursion into `childRules`.  Every constraint after
`format` is checked against the raw value, and the raw value (not the converted
one) is what the sibling checks receive.  The returned converted value is the
converter's output when a converter ran, else the (possibly mutated) raw value
the variable `convertedValue` still aliases. -/
def prBody (fmts : Formats) (opts : Options)
    (pcrNext : String → RuleMap → Value → Stack → Except VErr (Value × Stack))
    (key : String) (rule : Rule) (ruleName : String) (value : Option Value)
    (stack : Stack) : Except VErr PRResult :=
  (if rule.required then isRequired value key else pure ()) >>= fun _ =>
  match value with
  | none => pure (none, none, stack)
  | some v =>
      (if jsTruthyOptStr rule.format then isCorrectFormat fmts opts rule v key
       else pure (v, false)) >>= fun fc =>
      (if rule.allowedValues.isSome then isAllowedValue rule v key else pure ()) >>= fun _ =>
      (if rule.range.isSome then isInRange rule v key else pure ()) >>= fun _ =>
      (if jsTruthyOptNat rule.minLength then isMinLength rule v key else pure ()) >>= fun _ =>
      (if jsTruthyOptNat rule.maxLength then isMaxLength rule v key else pure ()) >>= fun _ =>
      (if jsTruthyOptNat rule.length then isLength rule v key else pure ()) >>= fun _ =>
      processSiblingRules key rule ruleName v
        (if rule.fixedChildLength then enableFixedChildLength stack else stack) >>= fun stack2 =>
      match rule.childRules with
      | some childRules =>
          (if !(jsTypeofObject v) then Except.error (.validation key (.notObjectOrArray))
           else pure ()) >>= fun _ =>
          pcrNext key childRules v stack2 >>= fun r =>
          pure (some (if fc.2 then fc.1 else r.1), some r.1, r.2)
      | none => pure (some fc.1, some v, stack2)

/-- The body of the per-item loop of `processChildRules` (the callback the source
passes to the iteration strategy, applied to each produced item in order),
parameterized by the next level of `processRule` and of the loop itself.  For
each item: build the key, read the child value live from the (possibly already
mutated) parent, resolve the rule entry (an `undefined` rule-name reaches
`rule.required` on `undefined` — a host `TypeError`), resolve conditionals, run
`processRule`, let the parent see the in-place mutation of the child, and write
the converted value back when conversion is on and a value was produced. -/
def piBody (opts : Options)
    (prNext : String → Rule → String → Option Value → Stack → Except VErr PRResult)
    (piNext : RuleMap → String → Bool → List Item → Value → Stack → Except VErr (Value × Stack))
    (rules : RuleMap) (parentKey : String) (hasMultipleRules : Bool)
    (items : List Item) (parentValue : Value) (stack : Stack) :
    Except VErr (Value × Stack) :=
  match items with
  | [] => .ok (parentValue, stack)
  | (ik, ruleNameOpt) :: rest => do
      let key := mkKey parentKey hasMultipleRules ik ruleNameOpt
      let value := readVal parentValue ik
      match lookupRule rules ruleNameOpt with
      | none => Except.error (.typeError ("cannot read required of undefined"))
      | some entry => do
          let rule ← selectConditionalRule opts entry value parentValue key
          let r ← prNext key rule (ruleNameOpt.getD wildcardRuleName) value stack
          let parent1 :=
            match r.2.1 with
            | some mutated => writeVal parentValue ik mutated
            | none => parentValue
          let parent2 :=
            match r.1 with
            | some convertedValue =>
                if opts.convert then writeVal parent1 ik convertedValue else parent1
            | none => parent1
          piNext rules parentKey hasMultipleRules rest parent2 r.2.2

/-- The body of `processChildRules`, parameterized by the next level of the item
loop: push a fresh frame, pick the iteration strategy from (is the parent an
array, does the Rule Map carry a wildcard), run the loop, apply the filter option
(only for an object parent under a wildcard-free Rule Map, and only when no error
aborted the traversal), pop the frame. -/
def pcrBody (opts : Options)
    (piNext : RuleMap → String → Bool → List Item → Value → Stack → Except VErr (Value × Stack))
    (parentKey : String) (rules : RuleMap) (parentValue : Value) (stack : Stack) :
    Except VErr (Value × Stack) :=
  let hasWildcard := hasWildcardRM rules
  let hasMultipleRules := rules.length > 1
  let isArray := isArrayV parentValue
  let stack1 := Frame.empty :: stack
  let items :=
    match parentValue with
    | .arr elems =>
        if hasWildcard then iterateArrayWithRulesWildcard elems.length rules
        else iterateArrayWithRules elems.length rules
    | .obj fields =>
        if hasWildcard then iterateObjectWithRulesWildcard (fields.map Prod.fst) rules
        else iterateObjectWithRules rules
    | _ =>
        if hasWildcard then iterateObjectWithRulesWildcard [] rules
        else iterateObjectWithRules rules
  match piNext rules parentKey hasMultipleRules items parentValue stack1 with
  | .error e => .error e
  | .ok (parent1, stack2) =>
      let parent2 :=
        if opts.filter && !isArray && !hasWildcard then applyFilterForObject parent1 rules
        else parent1
      .ok (parent2, stack2.tail)

/-- The three mutually recursive engine functions at one fuel level. -/
structure EngineFns : Type where
  pr : String → Rule → String → Option Value → Stack → Except VErr PRResult
  pi : RuleMap → String → Bool → List Item → Value → Stack → Except VErr (Value × Stack)
  pcr : String → RuleMap → Value → Stack → Except VErr (Value × Stack)

/-- The engine, by structural recursion on fuel: at fuel `n + 1` every recursive
descent (into nested `childRules` and along the item list) runs at fuel `n`. -/
def engineAux (fmts : Formats) (opts : Options) : Nat → EngineFns
  | 0 =>
      { pr := fun _ _ _ _ _ => .error (.outOfFuel)
        pi := fun _ _ _ _ _ _ => .error (.outOfFuel)
        pcr := fun _ _ _ _ => .error (.outOfFuel) }
  | fuel + 1 =>
      let prev := engineAux fmts opts fuel
      { pr := prBody fmts opts prev.pcr
        pi := piBody opts prev.pr prev.pi
        pcr := pcrBody opts prev.pi }

/-- `processRule(key, rule, ruleName, value, parentStack)` at a given fuel. -/
def processRule (fmts : Formats) (opts : Options) (fuel : Nat) (key : String)
    (rule : Rule) (ruleName : String) (value : Option Value) (stack : Stack) :
    Except VErr PRResult :=
  (engineAux fmts opts fuel).pr key rule ruleName value stack

/-- The item loop of `processChildRules` at a given fuel. -/
def processItems (fmts : Formats) (opts : Options) (fuel : Nat) (rules : RuleMap)
    (parentKey : String) (hasMultipleRules : Bool) (items : List Item)
    (parentValue : Value) (stack : Stack) : Except VErr (Value × Stack) :=
  (engineAux fmts opts fuel).pi rules parentKey hasMultipleRules items parentValue stack

/-- `processChildRules(parentKey, rules, parentValue, parentStack)` at a given fuel. -/
def processChildRules (fmts : Formats) (opts : Options) (fuel : Nat)
    (parentKey : String) (rules : RuleMap) (parentValue : Value) (stack : Stack) :
    Except VErr (Value × Stack) :=
  (engineAux fmts opts fuel).pcr parentKey rules parentValue stack

/-- `validate(data, rules, options)`: fresh stack, process the root Rule Map
against the root value.  The host function returns nothing and mutates `data` in
place; the embedding returns the mutated data on success. -/
def validate (fmts : Formats) (opts : Options) (fuel : Nat) (rules : RuleMap)
    (data : Value) : Except VErr Value :=
  Except.map Prod.fst (processChildRules fmts opts fuel ("") rules data [])

/-- Rule with only `childRules` set. -/
def ruleCR (m : RuleMap) : Rule :=
  .mk false none none none none none none false false false false none (some m)

/-- Rule with only `ascending` set. -/
def ascRule : Rule :=
  .mk false none none none none none none false true false false none none

/-- Rule with only `fixedChildLength` set. -/
def fclRule : Rule :=
  .mk false none none none none none none true false false false none none

/-- Rule with `fixedChildLength` set and wildcard child rules. -/
def fclParentRule : Rule :=
  .mk false none none none none none none true false false false none
    (some [(wildcardRuleName, .single emptyRule)])

/-- Rule with `format: "number"` and `ascending`. -/
def numberAscRule : Rule :=
  .mk false (some ("number")) none none none none none false true false false none none

/-- Rule with only a `condition` name (`isBig`) and no other constraint. -/
def condOnlyRule : Rule :=
  .mk false none none none none none none false false false false (some ("isBig")) none

/-- Rule with `required` and every sibling-check flag set and no child rules. -/
def allFlagsRequiredRule : Rule :=
  .mk true none none none none none none true true true true none none

/-- An error raised by the sibling checks (`fixedChildLength` length mismatch or
one of the three ordering violations). -/
def isSiblingCheckErr : VErr → Bool
  | .validation _ k =>
      k == ErrKind.fixedLenMismatch || k == ErrKind.breaksAscending ||
      k == ErrKind.breaksDescending || k == ErrKind.repeatsSibling
  | _ => false

/-- A rule with no nested Rule Map. -/
def flatRule (r : Rule) : Bool := r.childRules.isNone

/-- An entry all of whose selectable rules are flat. -/
def flatEntry : RuleEntry → Bool
  | .single r => flatRule r
  | .alts rs => rs.all flatRule

/-- A Rule Map that only matches root-level values (no entry descends). -/
def flatRules (rules : RuleMap) : Bool := rules.all (fun p => flatEntry p.2)

/-- C1 fixture: two head rules, the wildcard, one tail rule. -/
def c1Rules : RuleMap :=
  [(("a"), .single emptyRule), (("b"), .single emptyRule),
   (wildcardRuleName, .single emptyRule), (("c"), .single emptyRule)]

/-- C1 fixture: zero head rules, one tail rule. -/
def c1TailRules : RuleMap :=
  [(wildcardRuleName, .single emptyRule), (("a"), .single emptyRule)]

/-- C2 fixture: the `fixedChildLength` flag on the wildcard rule the siblings
share. -/
def c2SiblingRules : RuleMap :=
  [(("a"), .single (ruleCR [(wildcardRuleName, .single fclRule)]))]

/-- C2 fixture: the `fixedChildLength` flag on the rule of the parent container. -/
def c2ParentRules : RuleMap :=
  [(("a"), .single fclParentRule)]

/-- `{a: [[1,2],[3,4,5]]}`. -/
def c2DataBad : Value :=
  .obj [(("a"), .arr [.arr [.num 1, .num 2], .arr [.num 3, .num 4, .num 5]])]

/-- `{a: [[1,2],[3,4]]}`. -/
def c2DataGood : Value :=
  .obj [(("a"), .arr [.arr [.num 1, .num 2], .arr [.num 3, .num 4]])]

/-- C3 fixture: wildcard child rule `format:"number", ascending:true`. -/
def c3Rules : RuleMap :=
  [(("a"), .single (ruleCR [(wildcardRuleName, .single numberAscRule)]))]

/-- `{a: ["9", "10"]}`: ascending as numbers, descending as raw strings. -/
def c3Data : Value := .obj [(("a"), .arr [.str ("9"), .str ("10")])]

/-- `{a: ["1", "2"]}`: ascending both as numbers and as raw strings. -/
def c3DataOk : Value := .obj [(("a"), .arr [.str ("1"), .str ("2")])]

/-- `{a: [1, 2]}`: the numbers `c3DataOk` converts to. -/
def c3DataConverted : Value := .obj [(("a"), .arr [.num 1, .num 2])]

/-- Options with conversion enabled and nothing else. -/
def optsConvert : Options := { convert := true }

/-- Options with filtering enabled and nothing else. -/
def optsFilter : Options := { filter := true }

/-- C4 fixture: one alternative guarded by the unregistered condition `isBig`. -/
def c4Rules : RuleMap := [(("a"), .alts [condOnlyRule])]

/-- `{a: 5}`. -/
def c4Data : Value := .obj [(("a"), .num 5)]

/-- C5 witness fixture: two plain rules. -/
def c5Rules : RuleMap := [(("x"), .single emptyRule), (("y"), .single emptyRule)]

/-- C6 fixture: wildcard `ascending` child rule under `a`. -/
def c6Rules : RuleMap :=
  [(("a"), .single (ruleCR [(wildcardRuleName, .single ascRule)]))]

/-- `{a: [1, 3, 2]}`. -/
def c6DataBad : Value := .obj [(("a"), .arr [.num 1, .num 3, .num 2])]

/-- `{a: [1, 2, 3]}`. -/
def c6DataGood : Value := .obj [(("a"), .arr [.num 1, .num 2, .num 3])]

/-- C7 witness fixture. -/
def c7Rules : RuleMap := [(("a"), .single emptyRule)]

/-- `{a: 1, b: 2}`. -/
def c7Data : Value := .obj [(("a"), .num 1), (("b"), .num 2)]

/-- C9 fixture: two levels of wildcard rules, the inner one `ascending`. -/
def c9Rules : RuleMap :=
  [(("a"), .single (ruleCR [(wildcardRuleName, .single (ruleCR [(wildcardRuleName, .single ascRule)]))]))]

/-- `{a: [[3,4],[1,2]]}`: each inner sequence individually ascending. -/
def c9Data : Value :=
  .obj [(("a"), .arr [.arr [.num 3, .num 4], .arr [.num 1, .num 2]])]

/-- `{a: [[3,4]]}`. -/
def c9DataFirst : Value := .obj [(("a"), .arr [.arr [.num 3, .num 4]])]

/-- `{a: [[1,2]]}`. -/
def c9DataSecond : Value := .obj [(("a"), .arr [.arr [.num 1, .num 2]])]

/-- C10 witness fixture: a root rule with `required` and every sibling flag. -/
def c10Rules : RuleMap := [(("a"), .single allFlagsRequiredRule)]

/-! ## Helper lemmas -/

theorem exceptBind_ok {α β : Type} {x : Except VErr α} {f : α → Except VErr β} {y : β} :
    (x >>= f) = .ok y ↔ ∃ a, x = .ok a ∧ f a = .ok y := by
  cases x <;> simp [Bind.bind, Except.bind]

theorem exceptBind_err {α β : Type} {x : Except VErr α} {f : α → Except VErr β} {e : VErr} :
    (x >>= f) = .error e ↔ x = .error e ∨ ∃ a, x = .ok a ∧ f a = .error e := by
  cases x <;> simp [Bind.bind, Except.bind]

theorem exceptPure_eq_ok {α : Type} (a : α) : (pure a : Except VErr α) = .ok a := rfl

theorem lookup_setAssoc_self {α : Type} (l : List (String × α)) (k : String) (v : α) :
    lookupAssoc (setAssoc l k v) k = some v := by
  induction l with
  | nil => simp [setAssoc, lookupAssoc]
  | cons h t ih =>
      obtain ⟨k', w⟩ := h
      by_cases hk : k' == k
      · simp [setAssoc, hk, lookupAssoc]
      · simp only [setAssoc, hk, if_neg, Bool.false_eq_true, not_false_iff, ite_false,
          lookupAssoc, ih]

theorem setIfPresent_keys (l : List (String × Value)) (k : String) (v : Value) :
    (setIfPresent l k v).map Prod.fst = l.map Prod.fst := by
  induction l with
  | nil => simp [setIfPresent]
  | cons h t ih =>
      obtain ⟨k', w⟩ := h
      by_cases hk : k' == k <;> simp [setIfPresent, hk, ih]

theorem setIfPresent_self (l : List (String × Value)) (k : String) (v : Value)
    (h : lookupAssoc l k = some v) : setIfPresent l k v = l := by
  induction l with
  | nil => simp [lookupAssoc] at h
  | cons hd t ih =>
      obtain ⟨k', w⟩ := hd
      by_cases hk : k' == k
      · simp only [lookupAssoc, hk, if_pos] at h
        obtain rfl : w = v := Option.some.inj h
        simp [setIfPresent, hk]
      · simp only [lookupAssoc, hk, Bool.false_eq_true, if_neg, not_false_iff] at h
        simp [setIfPresent, hk, ih h]

theorem listSet_self {α : Type} (l : List α) (i : Nat) (v : α)
    (h : l[i]? = some v) : l.set i v = l := by
  induction l generalizing i with
  | nil => simp at h
  | cons hd t ih =>
      cases i with
      | zero => simp at h; simp [List.set, h]
      | succ j => simp at h; simp [List.set, ih j h]

theorem writeVal_readVal (p : Value) (ik : ItemKey) (v : Value)
    (h : readVal p ik = some v) : writeVal p ik v = p := by
  cases p <;> cases ik <;> simp [readVal] at h <;>
    simp [writeVal, listSet_self, setIfPresent_self, h]

/-! ## Unfolding equations for the fuel-indexed engine -/

theorem processRule_zero (fmts : Formats) (opts : Options) (key : String) (rule : Rule)
    (ruleName : String) (value : Option Value) (stack : Stack) :
    processRule fmts opts 0 key rule ruleName value stack = .error (.outOfFuel) := rfl

theorem processItems_zero (fmts : Formats) (opts : Options) (rules : RuleMap)
    (parentKey : String) (hasMultipleRules : Bool) (items : List Item)
    (parentValue : Value) (stack : Stack) :
    processItems fmts opts 0 rules parentKey hasMultipleRules items parentValue stack =
      .error (.outOfFuel) := rfl

theorem processChildRules_zero (fmts : Formats) (opts : Options) (parentKey : String)
    (rules : RuleMap) (parentValue : Value) (stack : Stack) :
    processChildRules fmts opts 0 parentKey rules parentValue stack = .error (.outOfFuel) := rfl

theorem processRule_succ (fmts : Formats) (opts : Options) (fuel : Nat) (key : String)
    (rule : Rule) (ruleName : String) (value : Option Value) (stack : Stack) :
    processRule fmts opts (fuel + 1) key rule ruleName value stack =
      prBody fmts opts (processChildRules fmts opts fuel) key rule ruleName value stack := rfl

theorem processItems_succ (fmts : Formats) (opts : Options) (fuel : Nat) (rules : RuleMap)
    (parentKey : String) (hasMultipleRules : Bool) (items : List Item)
    (parentValue : Value) (stack : Stack) :
    processItems fmts opts (fuel + 1) rules parentKey hasMultipleRules items parentValue stack =
      piBody opts (processRule fmts opts fuel) (processItems fmts opts fuel)
        rules parentKey hasMultipleRules items parentValue stack := rfl

theorem processChildRules_succ (fmts : Formats) (opts : Options) (fuel : Nat)
    (parentKey : String) (rules : RuleMap) (parentValue : Value) (stack : Stack) :
    processChildRules fmts opts (fuel + 1) parentKey rules parentValue stack =
      pcrBody opts (processItems fmts opts fuel) parentKey rules parentValue stack := rfl

/-! ## Claim theorems -/

/-- C1: the claim states that under a wildcard Rule Map with `h` head rules and
`t` tail rules the last `t` positions use the tail rules 1:1 in order.  The
source contradicts its own intent (`wildcardEndIndex` is documented as "the last
value of i that should use the wildcard rule"): with the rule map
`{a, b, *, c}` (two head rules, one tail rule) over a 5-element sequence, the
last position is assigned the wildcard rule instead of the tail rule `c`; and
with `{*, a}` (zero head rules, one tail rule) over a 3-element sequence the
last position is assigned the rule at index 2 of a 2-element rule-name array —
the host `undefined` — so the engine crashes with a `TypeError` instead of
applying tail rule `a`. -/
theorem c1_wildcard_tail_misassignment :
    iterateArrayWithRulesWildcard 5 c1Rules =
      [(.idx 0, some ("a")), (.idx 1, some ("b")), (.idx 2, some wildcardRuleName),
       (.idx 3, some wildcardRuleName), (.idx 4, some wildcardRuleName)] ∧
    iterateArrayWithRulesWildcard 3 c1TailRules =
      [(.idx 0, some wildcardRuleName), (.idx 1, some wildcardRuleName), (.idx 2, none)] ∧
    validate srcFormats {} 20 c1TailRules (.arr [.num 1, .num 2, .num 3]) =
      .error (.typeError ("cannot read required of undefined")) :=
  ⟨rfl, rfl, rfl⟩

/-- C9: ordering state is keyed by rule-name in the frame one level up, and that
frame lives for the whole iteration of its Rule Map level — so `[[3,4]]` and
`[[1,2]]` each validate on their own under a nested ascending wildcard, yet
`[[3,4],[1,2]]` fails: the last value recorded in the first container (4) is
compared against the first value of the second container (1). -/
theorem c9_ordering_state_leaks_across_sibling_containers :
    validate srcFormats {} 20 c9Rules c9DataFirst = .ok c9DataFirst ∧
    validate srcFormats {} 20 c9Rules c9DataSecond = .ok c9DataSecond ∧
    validate srcFormats {} 20 c9Rules c9Data =
      .error (.validation ("a[1][0]") (.breaksAscending)) :=
  ⟨rfl, rfl, rfl⟩

/-- C2 counterexample: with `fixedChildLength` on the wildcard rule the sibling
sequences `[1,2]` and `[3,4,5]` share, the claim requires the second sibling
(length 3, sealed baseline 2) to fail — but validation succeeds: the flag set by
a rule marks the frame of that rule's own level (`peek(0)`), while the check for
the flagged value reads the frame one level further up (`peek(1)`), which no rule
ever marked here. -/
theorem c2_counterexample :
    validate srcFormats {} 20 c2SiblingRules c2DataBad = .ok c2DataBad ∧
    jsLength (.arr [.num 3, .num 4, .num 5]) ≠ jsLength (.arr [.num 1, .num 2]) :=
  ⟨rfl, by decide⟩

/-- C3 counterexample: under `{format:"number", ascending:true}` with
`convert:true`, the strings `"9"`, `"10"` convert to 9 and 10 — ascending as
numbers, so the claim (converted values are what ordering checks compare) says
the run succeeds; the engine instead records and compares the raw strings
(`"9" > "10"` lexicographically) and fails. -/
theorem c3_counterexample :
    validate srcFormats optsConvert 20 c3Rules c3Data =
      .error (.validation ("a[1]") (.breaksAscending)) ∧
    convNumber (.str ("9")) = .ok (.num 9) ∧
    convNumber (.str ("10")) = .ok (.num 10) ∧
    jsGt (.num 9) (.num 10) = false :=
  ⟨rfl, rfl, rfl, rfl⟩

/-- C4 counterexample: an alternative list whose entry names the unregistered
condition `isBig` makes `validate` raise `Err.TrackValidationError` — the
per-value validation class (`VErr.validation`), not the plain-`Error`
configuration class (`VErr.fatal`) the claim requires. -/
theorem c4_counterexample :
    validate srcFormats {} 20 c4Rules c4Data =
      .error (.validation ("a") (.invalidCondition ("isBig"))) := rfl

/-- C5: with no wildcard, position `i` is matched to rule-name number
`i % k` (declaration order), the iteration covers `max(sequence length, k)`
positions, and any position at or beyond the sequence's end reads the host
`undefined`. -/
theorem c5_cyclic_rule_iteration (len : Nat) (rules : RuleMap) (h : rules ≠ []) :
    (iterateArrayWithRules len rules).length = max len rules.length ∧
    (∀ i, i < max len rules.length →
      (iterateArrayWithRules len rules)[i]? =
        some (.idx i, (rules.map Prod.fst)[i % rules.length]?) ∧
      ((rules.map Prod.fst)[i % rules.length]?).isSome = true) ∧
    (∀ (elems : List Value) (i : Nat), elems.length ≤ i →
      readVal (.arr elems) (.idx i) = none) := by
  refine ⟨by simp [iterateArrayWithRules], fun i hi => ⟨?_, ?_⟩, fun elems i hle => ?_⟩
  · simp only [iterateArrayWithRules, List.getElem?_map, List.getElem?_range, hi,
      Option.map_some]
    simp [List.getElem?_range, hi]
  · have hpos : 0 < rules.length := List.length_pos.mpr h
    have hlt : i % rules.length < (rules.map Prod.fst).length := by
      simpa using Nat.mod_lt i hpos
    rw [List.getElem?_eq_getElem hlt]
    rfl
  · simp [readVal, List.getElem?_eq_none, hle]

/-- Witness for C5 at `len = 4` and a two-rule map. -/
theorem c5_cyclic_rule_iteration_witness :
    (iterateArrayWithRules 4 c5Rules).length = max 4 c5Rules.length ∧
    (iterateArrayWithRules 4 c5Rules)[2]? =
      some (.idx 2, (c5Rules.map Prod.fst)[2 % c5Rules.length]?) ∧
    readVal (.arr [.num 7]) (.idx 3) = none := by
  have h := c5_cyclic_rule_iteration 4 c5Rules (by simp [c5Rules])
  exact ⟨h.1, ((h.2.1) 2 (by decide)).1, h.2.2 [.num 7] 3 (by decide)⟩

theorem sortCheck_err_iff (flag : Bool) (bad : Value → Value → Bool) (kind : ErrKind)
    (key rn : String) (prev : Option Value) (v : Value) (pcv : List (String × Value)) :
    (∃ e, sortCheck flag bad kind key rn prev v pcv = .error e) ↔
      (flag = true ∧ ∃ p, prev = some p ∧ bad p v = true) := by
  cases flag with
  | false => simp [sortCheck]
  | true =>
      cases prev with
      | none => simp [sortCheck]
      | some p => by_cases hb : bad p v <;> simp [sortCheck, hb]

theorem sortCheck_ok (flag : Bool) (bad : Value → Value → Bool) (kind : ErrKind)
    (key rn : String) (prev : Option Value) (v : Value) (pcv pcv' : List (String × Value))
    (h : sortCheck flag bad kind key rn prev v pcv = .ok pcv') :
    (flag = false ∧ pcv' = pcv) ∨ (flag = true ∧ pcv' = setAssoc pcv rn v) := by
  cases flag with
  | false => simp [sortCheck] at h; exact Or.inl ⟨rfl, h.symm⟩
  | true =>
      cases prev with
      | none => simp [sortCheck] at h; exact Or.inr ⟨rfl, h.symm⟩
      | some p =>
          by_cases hb : bad p v <;> simp [sortCheck, hb] at h
          exact Or.inr ⟨rfl, h.symm⟩

/-- C6: for a non-root value (a stack with a frame one level up), the sorting
checks fail exactly when a previously recorded value for the same rule-name
exists and the flagged comparison flags it — `ascending` when the previous value
is greater (`prev > value`, i.e. the new value is less), `descending` when it is
less, `noRepeat` when it is strictly equal; on success, if any flag is set the
frame one level up records the new value under the rule-name.  In particular an
ascending wildcard rule over `[1,3,2]` fails at index 2 with the
breaks-ascending reason, while `[1,2,3]` succeeds. -/
theorem c6_sibling_ordering_semantics :
    (∀ (key rn : String) (rule : Rule) (v : Value) (top parentInfo : Frame) (rest : Stack),
      ((∃ e, processSortingRules key rule rn v (top :: parentInfo :: rest) = .error e) ↔
        ((rule.ascending = true ∧ ∃ p,
            lookupAssoc parentInfo.prevChildValues rn = some p ∧ jsGt p v = true) ∨
         (rule.descending = true ∧ ∃ p,
            lookupAssoc parentInfo.prevChildValues rn = some p ∧ jsLt p v = true) ∨
         (rule.noRepeat = true ∧ ∃ p,
            lookupAssoc parentInfo.prevChildValues rn = some p ∧ jsStrictEq p v = true))) ∧
      (∀ st', processSortingRules key rule rn v (top :: parentInfo :: rest) = .ok st' →
        ∃ pcv, st' = top :: { parentInfo with prevChildValues := pcv } :: rest ∧
          ((rule.ascending = true ∨ rule.descending = true ∨ rule.noRepeat = true) →
            lookupAssoc pcv rn = some v))) ∧
    validate srcFormats {} 20 c6Rules c6DataBad =
      .error (.validation ("a[2]") (.breaksAscending)) ∧
    validate srcFormats {} 20 c6Rules c6DataGood = .ok c6DataGood := by
  refine ⟨fun key rn rule v top parentInfo rest => ⟨?_, ?_⟩, rfl, rfl⟩
  · constructor
    · rintro ⟨e, he⟩
      simp only [processSortingRules] at he
      rcases exceptBind_err.mp he with h1 | ⟨pcv1, c1, he2⟩
      · exact Or.inl ((sortCheck_err_iff _ _ _ _ _ _ _ _).mp ⟨e, h1⟩)
      · rcases exceptBind_err.mp he2 with h2 | ⟨pcv2, c2, he3⟩
        · exact Or.inr (Or.inl ((sortCheck_err_iff _ _ _ _ _ _ _ _).mp ⟨e, h2⟩))
        · rcases exceptBind_err.mp he3 with h3 | ⟨pcv3, c3, he4⟩
          · exact Or.inr (Or.inr ((sortCheck_err_iff _ _ _ _ _ _ _ _).mp ⟨e, h3⟩))
          · simp [pure, Except.pure] at he4
    · intro h
      cases c1 : sortCheck rule.ascending jsGt (.breaksAscending) key rn
          (lookupAssoc parentInfo.prevChildValues rn) v parentInfo.prevChildValues with
      | error e1 =>
          exact ⟨e1, by simp only [processSortingRules, Bind.bind, Except.bind, c1]⟩
      | ok pcv1 =>
          cases c2 : sortCheck rule.descending jsLt (.breaksDescending) key rn
              (lookupAssoc parentInfo.prevChildValues rn) v pcv1 with
          | error e2 =>
              exact ⟨e2, by simp only [processSortingRules, Bind.bind, Except.bind, c1, c2]⟩
          | ok pcv2 =>
              cases c3 : sortCheck rule.noRepeat jsStrictEq (.repeatsSibling) key rn
                  (lookupAssoc parentInfo.prevChildValues rn) v pcv2 with
              | error e3 =>
                  exact ⟨e3, by
                    simp only [processSortingRules, Bind.bind, Except.bind, c1, c2, c3]⟩
              | ok pcv3 =>
                  exfalso
                  rcases h with hcond | hcond | hcond
                  · obtain ⟨e, he⟩ := (sortCheck_err_iff rule.ascending jsGt (.breaksAscending)
                      key rn _ v parentInfo.prevChildValues).mpr hcond
                    rw [c1] at he
                    cases he
                  · obtain ⟨e, he⟩ := (sortCheck_err_iff rule.descending jsLt (.breaksDescending)
                      key rn _ v pcv1).mpr hcond
                    rw [c2] at he
                    cases he
                  · obtain ⟨e, he⟩ := (sortCheck_err_iff rule.noRepeat jsStrictEq (.repeatsSibling)
                      key rn _ v pcv2).mpr hcond
                    rw [c3] at he
                    cases he
  · intro st' hok
    simp only [processSortingRules] at hok
    rcases exceptBind_ok.mp hok with ⟨pcv1, c1, hok2⟩
    rcases exceptBind_ok.mp hok2 with ⟨pcv2, c2, hok3⟩
    rcases exceptBind_ok.mp hok3 with ⟨pcv3, c3, hpure⟩
    have hst : st' = top :: { parentInfo with prevChildValues := pcv3 } :: rest := by
      simpa [pure, Except.pure] using hpure.symm
    refine ⟨pcv3, hst, fun hflag => ?_⟩
    rcases sortCheck_ok _ _ _ _ _ _ _ _ _ c3 with ⟨hn, rfl⟩ | ⟨hn, rfl⟩
    · rcases sortCheck_ok _ _ _ _ _ _ _ _ _ c2 with ⟨hd, rfl⟩ | ⟨hd, rfl⟩
      · rcases sortCheck_ok _ _ _ _ _ _ _ _ _ c1 with ⟨ha, rfl⟩ | ⟨ha, rfl⟩
        · rcases hflag with hf | hf | hf <;> simp_all
        · exact lookup_setAssoc_self _ _ _
      · exact lookup_setAssoc_self _ _ _
    · exact lookup_setAssoc_self _ _ _

/-- Witness for C6 at concrete inputs: a frame one level up that recorded 3
under the wildcard name makes an ascending check of 2 fail, and an ascending
check of 5 succeed and re-record 5. -/
theorem c6_sibling_ordering_semantics_witness :
    ∃ e, processSortingRules ("k") ascRule wildcardRuleName (.num 2)
        (Frame.empty :: (⟨none, [(wildcardRuleName, .num 3)]⟩ : Frame) :: []) = .error e := by
  have h := (c6_sibling_ordering_semantics.1 ("k") wildcardRuleName ascRule (.num 2)
    Frame.empty ⟨none, [(wildcardRuleName, .num 3)]⟩ []).1
  exact h.mpr (Or.inl ⟨rfl, .num 3, rfl, rfl⟩)

/-- C2 (amended): a rule that enables `fixedChildLength` marks the frame of its
own level (the stack top), not the parent frame of the flagged value; the values
sealed and compared are the ones processed one level deeper — the flagged
container's children: with the pending sentinel in the frame one level up, the
first child seals the baseline to its length; once sealed to a nonzero length,
any child whose length differs fails, regardless of that child's own rule flags.
Concretely, the flag on the rule of `a` makes `{a:[[1,2],[3,4,5]]}` fail at
`a[1]` and `{a:[[1,2],[3,4]]}` succeed. -/
theorem c2_fixed_child_length_mechanism :
    (∀ (f : Frame) (rest : Stack),
      enableFixedChildLength (f :: rest) = { f with fixedChildLength := some (-1) } :: rest) ∧
    (∀ (key rn : String) (rule : Rule) (v : Value) (top parentInfo : Frame) (rest : Stack),
      parentInfo.fixedChildLength = some (-1) →
      rule.ascending = false → rule.descending = false → rule.noRepeat = false →
      processSiblingRules key rule rn v (top :: parentInfo :: rest) =
        .ok (top :: { parentInfo with fixedChildLength := jsLengthInt v } :: rest)) ∧
    (∀ (key rn : String) (rule : Rule) (v : Value) (top parentInfo : Frame)
        (rest : Stack) (n : Int),
      parentInfo.fixedChildLength = some n → n ≠ 0 → n ≠ -1 →
      jsLengthInt v ≠ some n →
      processSiblingRules key rule rn v (top :: parentInfo :: rest) =
        .error (.validation key (.fixedLenMismatch))) ∧
    validate srcFormats {} 20 c2ParentRules c2DataBad =
      .error (.validation ("a[1]") (.fixedLenMismatch)) ∧
    validate srcFormats {} 20 c2ParentRules c2DataGood = .ok c2DataGood := by
  refine ⟨fun f rest => rfl, ?_, ?_, rfl, rfl⟩
  · intro key rn rule v top parentInfo rest hfcl ha hd hn
    simp [processSiblingRules, hfcl, jsTruthyOptInt, processSortingRules, sortCheck,
      ha, hd, hn, Bind.bind, Except.bind, pure, Except.pure]
  · intro key rn rule v top parentInfo rest n hfcl hn0 hn1 hne
    have h1 : jsTruthyOptInt (some n) = true := by
      simp [jsTruthyOptInt, hn0]
    have h2 : ((some n : Option Int) == some (-1)) = false := by
      simp [hn1]
    have h3 : ((some n : Option Int) != jsLengthInt v) = true := by
      simp [Ne.symm hne]
    simp [processSiblingRules, hfcl, h1, h2, h3]

/-- Witness for C2's amended theorem: a frame one level up sealed to length 2
fails a child of length 1, and the pending sentinel seals to the child's
length. -/
theorem c2_fixed_child_length_mechanism_witness :
    processSiblingRules ("k") emptyRule ("r") (.arr [.num 1])
        (Frame.empty :: (⟨some 2, []⟩ : Frame) :: []) =
      .error (.validation ("k") (.fixedLenMismatch)) ∧
    processSiblingRules ("k") emptyRule ("r") (.arr [.num 1])
        (Frame.empty :: (⟨some (-1), []⟩ : Frame) :: []) =
      .ok (Frame.empty :: (⟨some 1, []⟩ : Frame) :: []) := by
  constructor
  · exact c2_fixed_child_length_mechanism.2.2.1 ("k") ("r") emptyRule (.arr [.num 1])
      Frame.empty ⟨some 2, []⟩ [] 2 rfl (by decide) (by decide) (by decide)
  · exact c2_fixed_child_length_mechanism.2.1 ("k") ("r") emptyRule (.arr [.num 1])
      Frame.empty ⟨some (-1), []⟩ [] rfl rfl rfl rfl

/-- C3 (amended): with `convert:true` and the registered `number` converter, the
stored value is replaced in place by the converter's output (`["1","2"]` becomes
`[1,2]`), but the sibling-ordering state records the original raw value: for any
number-string, `processRule` returns the converted number while the frame one
level up records the raw string, so subsequent ordering comparisons at that
level see raw values, not converted ones. -/
theorem c3_convert_in_place_raw_ordering :
    validate srcFormats optsConvert 20 c3Rules c3DataOk = .ok c3DataConverted ∧
    (∀ (s : String) (n : Int) (fuel : Nat), jsParseInt s = some n →
      processRule srcFormats optsConvert (fuel + 1) ("k") numberAscRule wildcardRuleName
        (some (.str s)) [Frame.empty, Frame.empty] =
        .ok (some (.num n), some (.str s),
          [Frame.empty, (⟨none, [(wildcardRuleName, .str s)]⟩ : Frame)])) := by
  refine ⟨rfl, fun s n fuel hparse => ?_⟩
  rw [processRule_succ]
  simp [prBody, numberAscRule, Rule.required, Rule.format, Rule.allowedValues, Rule.range,
    Rule.minLength, Rule.maxLength, Rule.length, Rule.fixedChildLength, Rule.ascending,
    Rule.descending, Rule.noRepeat, Rule.childRules, jsTruthyOptStr, jsTruthyOptNat,
    isCorrectFormat, srcFormats, optsConvert, convNumber, hparse, processSiblingRules,
    Frame.empty, jsTruthyOptInt, processSortingRules, lookupAssoc, sortCheck, setAssoc,
    Bind.bind, Except.bind, pure, Except.pure]

/-- Witness for C3's amended theorem at `s = "9"`. -/
theorem c3_convert_in_place_raw_ordering_witness :
    processRule srcFormats optsConvert 6 ("k") numberAscRule wildcardRuleName
        (some (.str ("9"))) [Frame.empty, Frame.empty] =
      .ok (some (.num 9), some (.str ("9")),
        [Frame.empty, (⟨none, [(wildcardRuleName, .str ("9"))]⟩ : Frame)]) :=
  c3_convert_in_place_raw_ordering.2 ("9") 9 5 rfl

/-- C4 (amended): a conditional alternative whose condition names a predicate
absent from `options.conditions` raises `Err.TrackValidationError` — the same
per-value validation class used for data errors — whereas an unknown *format*
name raises the plain `Error` configuration class; the concrete run shows the
engine surfacing the validation-class error. -/
theorem c4_unknown_condition_error_class :
    (∀ (opts : Options) (key : String) (v : Option Value) (pv : Value)
        (r : Rule) (rest : List Rule) (name : String),
      r.condition = some name → name ≠ ("") → opts.conditions name = none →
      selectConditionalRule opts (.alts (r :: rest)) v pv key =
        .error (.validation key (.invalidCondition name))) ∧
    (∀ (fmts : Formats) (opts : Options) (rule : Rule) (v : Value) (key format : String),
      rule.format = some format →
      fmts.validators format = none → fmts.converters format = none →
      isCorrectFormat fmts opts rule v key =
        .error (.fatal (format ++ (" is not a valid format at location ") ++ key))) ∧
    validate srcFormats {} 20 c4Rules c4Data =
      .error (.validation ("a") (.invalidCondition ("isBig"))) := by
  refine ⟨?_, ?_, rfl⟩
  · intro opts key v pv r rest name hcond hname hreg
    simp [selectConditionalRule, findCondition, hcond, jsTruthyOptStr, hname, hreg]
  · intro fmts opts rule v key format hf hv hc
    simp [isCorrectFormat, hf, hv, hc]

/-- Witness for C4's amended theorem at the `isBig` fixture. -/
theorem c4_unknown_condition_error_class_witness :
    selectConditionalRule {} (.alts [condOnlyRule]) (some (.num 5)) c4Data ("a") =
      .error (.validation ("a") (.invalidCondition ("isBig"))) :=
  c4_unknown_condition_error_class.1 {} ("a") (some (.num 5)) c4Data condOnlyRule []
    ("isBig") rfl (by decide) rfl

theorem writeVal_obj_keys (fields : List (String × Value)) (ik : ItemKey) (v : Value) :
    ∃ fields', writeVal (.obj fields) ik v = .obj fields' ∧
      fields'.map Prod.fst = fields.map Prod.fst := by
  cases ik with
  | idx i => exact ⟨fields, rfl, rfl⟩
  | prop k => exact ⟨setIfPresent fields k v, rfl, setIfPresent_keys fields k v⟩

theorem writeVal_arr_len (elems : List Value) (ik : ItemKey) (v : Value) :
    ∃ elems', writeVal (.arr elems) ik v = .arr elems' ∧ elems'.length = elems.length := by
  cases ik with
  | idx i => exact ⟨elems.set i v, rfl, by simp⟩
  | prop k => exact ⟨elems, rfl, rfl⟩

theorem filter_map_fst (l : List (String × Value)) (q : String → Bool) :
    (l.filter (fun p => q p.1)).map Prod.fst = (l.map Prod.fst).filter q := by
  induction l with
  | nil => rfl
  | cons h t ih =>
      obtain ⟨k, w⟩ := h
      by_cases hq : q k <;> simp [List.filter, hq, ih]

theorem processItems_obj_keys (fmts : Formats) (opts : Options) : ∀ (fuel : Nat)
    (rules : RuleMap) (pk : String) (hm : Bool) (items : List Item)
    (fields : List (String × Value)) (stack : Stack) (p : Value) (st' : Stack),
    processItems fmts opts fuel rules pk hm items (.obj fields) stack = .ok (p, st') →
    ∃ fields', p = .obj fields' ∧ fields'.map Prod.fst = fields.map Prod.fst := by
  intro fuel
  induction fuel with
  | zero =>
      intro rules pk hm items fields stack p st' h
      rw [processItems_zero] at h
      cases h
  | succ fuel ih =>
      intro rules pk hm items fields stack p st' h
      rw [processItems_succ] at h
      cases items with
      | nil =>
          simp only [piBody] at h
          exact ⟨fields, (Prod.mk.inj (Except.ok.inj h)).1.symm, rfl⟩
      | cons item rest =>
          obtain ⟨ik, rno⟩ := item
          simp only [piBody] at h
          cases hlr : lookupRule rules rno with
          | none => rw [hlr] at h; cases h
          | some entry =>
              rw [hlr] at h
              rcases exceptBind_ok.mp h with ⟨rule, hsel, h2⟩
              rcases exceptBind_ok.mp h2 with ⟨r, hpr, h3⟩
              obtain ⟨res, raw, st2⟩ := r
              obtain ⟨fields1, hw1, hk1⟩ :
                  ∃ fields1,
                    (match raw with
                      | some mutated => writeVal (.obj fields) ik mutated
                      | none => (Value.obj fields)) = .obj fields1 ∧
                    fields1.map Prod.fst = fields.map Prod.fst := by
                cases raw with
                | none => exact ⟨fields, rfl, rfl⟩
                | some mutated => exact writeVal_obj_keys fields ik mutated
              rw [hw1] at h3
              obtain ⟨fields2, hw2, hk2⟩ :
                  ∃ fields2,
                    (match res with
                      | some convertedValue =>
                          if opts.convert then writeVal (.obj fields1) ik convertedValue
                          else (Value.obj fields1)
                      | none => (Value.obj fields1)) = .obj fields2 ∧
                    fields2.map Prod.fst = fields1.map Prod.fst := by
                cases res with
                | none => exact ⟨fields1, rfl, rfl⟩
                | some cv =>
                    by_cases hcv : opts.convert
                    · simpa [hcv] using writeVal_obj_keys fields1 ik cv
                    · exact ⟨fields1, by simp [hcv], rfl⟩
              rw [hw2] at h3
              obtain ⟨fields', hp, hk⟩ := ih rules pk hm rest fields2 st2 p st' h3
              exact ⟨fields', hp, by rw [hk, hk2, hk1]⟩

theorem processItems_arr_len (fmts : Formats) (opts : Options) : ∀ (fuel : Nat)
    (rules : RuleMap) (pk : String) (hm : Bool) (items : List Item)
    (elems : List Value) (stack : Stack) (p : Value) (st' : Stack),
    processItems fmts opts fuel rules pk hm items (.arr elems) stack = .ok (p, st') →
    ∃ elems', p = .arr elems' ∧ elems'.length = elems.length := by
  intro fuel
  induction fuel with
  | zero =>
      intro rules pk hm items elems stack p st' h
      rw [processItems_zero] at h
      cases h
  | succ fuel ih =>
      intro rules pk hm items elems stack p st' h
      rw [processItems_succ] at h
      cases items with
      | nil =>
          simp only [piBody] at h
          exact ⟨elems, (Prod.mk.inj (Except.ok.inj h)).1.symm, rfl⟩
      | cons item rest =>
          obtain ⟨ik, rno⟩ := item
          simp only [piBody] at h
          cases hlr : lookupRule rules rno with
          | none => rw [hlr] at h; cases h
          | some entry =>
              rw [hlr] at h
              rcases exceptBind_ok.mp h with ⟨rule, hsel, h2⟩
              rcases exceptBind_ok.mp h2 with ⟨r, hpr, h3⟩
              obtain ⟨res, raw, st2⟩ := r
              obtain ⟨elems1, hw1, hk1⟩ :
                  ∃ elems1,
                    (match raw with
                      | some mutated => writeVal (.arr elems) ik mutated
                      | none => (Value.arr elems)) = .arr elems1 ∧
                    elems1.length = elems.length := by
                cases raw with
                | none => exact ⟨elems, rfl, rfl⟩
                | some mutated => exact writeVal_arr_len elems ik mutated
              rw [hw1] at h3
              obtain ⟨elems2, hw2, hk2⟩ :
                  ∃ elems2,
                    (match res with
                      | some convertedValue =>
                          if opts.convert then writeVal (.arr elems1) ik convertedValue
                          else (Value.arr elems1)
                      | none => (Value.arr elems1)) = .arr elems2 ∧
                    elems2.length = elems1.length := by
                cases res with
                | none => exact ⟨elems1, rfl, rfl⟩
                | some cv =>
                    by_cases hcv : opts.convert
                    · simpa [hcv] using writeVal_arr_len elems1 ik cv
                    · exact ⟨elems1, by simp [hcv], rfl⟩
              rw [hw2] at h3
              obtain ⟨elems', hp, hk⟩ := ih rules pk hm rest elems2 st2 p st' h3
              exact ⟨elems', hp, by rw [hk, hk2, hk1]⟩

/-- C7: with `filter:true`, after a Rule Map level over a mapping value with no
wildcard entry, the surviving keys are exactly the original keys that the Rule
Map names (in order) — everything else is deleted; with a wildcard entry the key
list is untouched, and a sequence value never loses elements. -/
theorem c7_filter_scope (fmts : Formats) (opts : Options) (fuel : Nat) (pk : String)
    (rules : RuleMap) (stack : Stack) (hf : opts.filter = true) :
    (∀ (fields : List (String × Value)) (v' : Value) (st' : Stack),
      processChildRules fmts opts fuel pk rules (.obj fields) stack = .ok (v', st') →
      ∃ fields', v' = .obj fields' ∧
        (hasWildcardRM rules = false →
          fields'.map Prod.fst =
            (fields.map Prod.fst).filter (fun k => (lookupAssoc rules k).isSome)) ∧
        (hasWildcardRM rules = true → fields'.map Prod.fst = fields.map Prod.fst)) ∧
    (∀ (elems : List Value) (v' : Value) (st' : Stack),
      processChildRules fmts opts fuel pk rules (.arr elems) stack = .ok (v', st') →
      ∃ elems', v' = .arr elems' ∧ elems'.length = elems.length) := by
  cases fuel with
  | zero =>
      constructor <;> intro a b c h <;> rw [processChildRules_zero] at h <;> cases h
  | succ fuel =>
      constructor
      · intro fields v' st' h
        rw [processChildRules_succ] at h
        simp only [pcrBody, isArrayV] at h
        split at h
        · cases h
        · rename_i parent1 stack2 heq
          obtain ⟨fields1, rfl, hk1⟩ :=
            processItems_obj_keys fmts opts fuel _ _ _ _ _ _ _ _ heq
          cases hw : hasWildcardRM rules with
          | true =>
              rw [hw, hf] at h
              simp only [Bool.not_true, Bool.and_false, Bool.not_false, Bool.and_true,
                if_neg, Bool.false_eq_true, not_false_iff, ite_false,
                Except.ok.injEq, Prod.mk.injEq] at h
              exact ⟨fields1, h.1.symm, fun hfalse => absurd hfalse (by decide), fun _ => hk1⟩
          | false =>
              rw [hw, hf] at h
              simp only [Bool.not_true, Bool.and_false, Bool.not_false, Bool.and_true,
                ite_true, applyFilterForObject, Except.ok.injEq, Prod.mk.injEq] at h
              refine ⟨fields1.filter (fun p => (lookupAssoc rules p.1).isSome),
                h.1.symm, fun _ => ?_, fun ht => absurd ht (by decide)⟩
              rw [filter_map_fst fields1 (fun k => (lookupAssoc rules k).isSome), hk1]
      · intro elems v' st' h
        rw [processChildRules_succ] at h
        simp only [pcrBody, isArrayV] at h
        split at h
        · cases h
        · rename_i parent1 stack2 heq
          obtain ⟨elems1, rfl, hk1⟩ :=
            processItems_arr_len fmts opts fuel _ _ _ _ _ _ _ _ heq
          simp only [Bool.not_true, Bool.and_false, Bool.false_and, Bool.false_eq_true,
            not_false_iff, if_neg, ite_false, Except.ok.injEq, Prod.mk.injEq] at h
          exact ⟨elems1, h.1.symm, hk1⟩

/-- Witness for C7: `{a:{}}` with `filter:true` over `{a:1, b:2}` keeps exactly
key `a`. -/
theorem c7_filter_scope_witness :
    ∃ fields', (Value.obj [(("a"), Value.num 1)]) = .obj fields' ∧
      (hasWildcardRM c7Rules = false →
        fields'.map Prod.fst =
          (([(("a"), Value.num 1), (("b"), Value.num 2)].map Prod.fst).filter
            (fun k => (lookupAssoc c7Rules k).isSome))) ∧
      (hasWildcardRM c7Rules = true →
        fields'.map Prod.fst = [(("a"), Value.num 1), (("b"), Value.num 2)].map Prod.fst) :=
  (c7_filter_scope srcFormats optsFilter 20 ("") c7Rules [] rfl).1
    [(("a"), Value.num 1), (("b"), Value.num 2)] (.obj [(("a"), Value.num 1)]) [] rfl

theorem noMutation (fmts : Formats) (opts : Options)
    (hc : opts.convert = false) (hfil : opts.filter = false) : ∀ (fuel : Nat),
    (∀ (key : String) (rule : Rule) (rn : String) (value : Option Value) (stack : Stack)
        (r : PRResult), processRule fmts opts fuel key rule rn value stack = .ok r →
        r.2.1 = value) ∧
    (∀ (rules : RuleMap) (pk : String) (hm : Bool) (items : List Item) (parent : Value)
        (stack : Stack) (p : Value × Stack),
        processItems fmts opts fuel rules pk hm items parent stack = .ok p →
        p.1 = parent) ∧
    (∀ (pk : String) (rules : RuleMap) (parent : Value) (stack : Stack) (p : Value × Stack),
        processChildRules fmts opts fuel pk rules parent stack = .ok p → p.1 = parent) := by
  intro fuel
  induction fuel with
  | zero =>
      refine ⟨?_, ?_, ?_⟩
      · intro key rule rn value stack r h
        rw [processRule_zero] at h
        cases h
      · intro rules pk hm items parent stack p h
        rw [processItems_zero] at h
        cases h
      · intro pk rules parent stack p h
        rw [processChildRules_zero] at h
        cases h
  | succ fuel ih =>
      obtain ⟨ihr, ihi, ihc⟩ := ih
      refine ⟨?_, ?_, ?_⟩
      · intro key rule rn value stack r h
        rw [processRule_succ] at h
        simp only [prBody] at h
        rcases exceptBind_ok.mp h with ⟨u1, hreq, h⟩
        cases value with
        | none =>
            simp only [pure, Except.pure, Except.ok.injEq] at h
            rw [← h]
        | some v =>
            rcases exceptBind_ok.mp h with ⟨fc, hfc, h⟩
            rcases exceptBind_ok.mp h with ⟨u2, hal, h⟩
            rcases exceptBind_ok.mp h with ⟨u3, hrg, h⟩
            rcases exceptBind_ok.mp h with ⟨u4, hmin, h⟩
            rcases exceptBind_ok.mp h with ⟨u5, hmax, h⟩
            rcases exceptBind_ok.mp h with ⟨u6, hlen, h⟩
            rcases exceptBind_ok.mp h with ⟨stack2, hsib, h⟩
            cases hcr : rule.childRules with
            | none =>
                rw [hcr] at h
                simp only [pure, Except.pure, Except.ok.injEq] at h
                rw [← h]
            | some cr =>
                rw [hcr] at h
                rcases exceptBind_ok.mp h with ⟨u7, hty, h⟩
                rcases exceptBind_ok.mp h with ⟨pcres, hpc, h⟩
                have hmut : pcres.1 = v := ihc key cr v stack2 pcres hpc
                simp only [pure, Except.pure, Except.ok.injEq] at h
                rw [← h]
                simp [hmut]
      · intro rules pk hm items parent stack p h
        rw [processItems_succ] at h
        cases items with
        | nil =>
            simp only [piBody] at h
            obtain rfl := Except.ok.inj h
            rfl
        | cons item rest =>
            obtain ⟨ik, rno⟩ := item
            simp only [piBody] at h
            cases hlr : lookupRule rules rno with
            | none => rw [hlr] at h; cases h
            | some entry =>
                rw [hlr] at h
                rcases exceptBind_ok.mp h with ⟨rule, hsel, h⟩
                rcases exceptBind_ok.mp h with ⟨r, hpr, h⟩
                have hraw : r.2.1 = readVal parent ik := ihr _ _ _ _ _ _ hpr
                obtain ⟨res, raw, st2⟩ := r
                simp only at hraw
                subst hraw
                cases hrv : readVal parent ik with
                | none =>
                    rw [hrv] at h
                    dsimp only at h
                    cases res with
                    | none => exact ihi _ _ _ _ _ _ _ h
                    | some cv =>
                        rw [hc] at h
                        simp only [Bool.false_eq_true, if_neg, not_false_iff, ite_false] at h
                        exact ihi _ _ _ _ _ _ _ h
                | some v =>
                    rw [hrv] at h
                    dsimp only at h
                    rw [writeVal_readVal parent ik v hrv] at h
                    cases res with
                    | none => exact ihi _ _ _ _ _ _ _ h
                    | some cv =>
                        rw [hc] at h
                        simp only [Bool.false_eq_true, if_neg, not_false_iff, ite_false] at h
                        exact ihi _ _ _ _ _ _ _ h
      · intro pk rules parent stack p h
        rw [processChildRules_succ] at h
        simp only [pcrBody] at h
        split at h
        · cases h
        · rename_i parent1 stack2 heq
          have h1 : parent1 = parent := ihi _ _ _ _ _ _ _ heq
          rw [hfil] at h
          simp only [Bool.false_and, Bool.false_eq_true, if_neg, not_false_iff,
            ite_false] at h
          obtain rfl := Except.ok.inj h
          exact h1

/-- C8: with `convert:false` and `filter:false`, a successful `validate` returns
the data tree unmodified, and — the engine being a pure function of its inputs —
a second run on the returned tree has the same outcome as the first. -/
theorem c8_unmodified_idempotent (fmts : Formats) (opts : Options) (fuel : Nat)
    (rules : RuleMap) (data d' : Value)
    (hc : opts.convert = false) (hf : opts.filter = false)
    (h : validate fmts opts fuel rules data = .ok d') :
    d' = data ∧ validate fmts opts fuel rules d' = validate fmts opts fuel rules data := by
  have hpcr : ∃ st, processChildRules fmts opts fuel ("") rules data [] = .ok (d', st) := by
    unfold validate at h
    cases hx : processChildRules fmts opts fuel ("") rules data [] with
    | error e => rw [hx] at h; cases h
    | ok pr =>
        rw [hx] at h
        obtain ⟨a, st⟩ := pr
        simp only [Except.map, Except.ok.injEq] at h
        exact ⟨st, by rw [h]⟩
  obtain ⟨st, hpcr⟩ := hpcr
  have hd : d' = data :=
    (noMutation fmts opts hc hf fuel).2.2 ("") rules data [] (d', st) hpcr
  exact ⟨hd, by rw [hd]⟩

/-- Witness for C8: validating `{a:[1,2,3]}` with default options succeeds,
returns the tree unchanged, and rerunning on the result gives the same outcome. -/
theorem c8_unmodified_idempotent_witness :
    ∃ d', validate srcFormats {} 20 c6Rules c6DataGood = .ok d' ∧ d' = c6DataGood ∧
      validate srcFormats {} 20 c6Rules d' = validate srcFormats {} 20 c6Rules c6DataGood := by
  have h : validate srcFormats {} 20 c6Rules c6DataGood = .ok c6DataGood := rfl
  have hthm := c8_unmodified_idempotent srcFormats {} 20 c6Rules c6DataGood c6DataGood
    rfl rfl h
  exact ⟨c6DataGood, h, hthm.1, hthm.2⟩

theorem isRequired_not_sib {value : Option Value} {key : String} {e : VErr}
    (h : isRequired value key = .error e) : isSiblingCheckErr e = false := by
  unfold isRequired at h
  split at h
  · rw [← Except.error.inj h]; rfl
  · cases h

theorem isCorrectFormat_not_sib {fmts : Formats} {opts : Options} {rule : Rule}
    {v : Value} {key : String} {e : VErr}
    (h : isCorrectFormat fmts opts rule v key = .error e) : isSiblingCheckErr e = false := by
  unfold isCorrectFormat at h
  cases hfmt : rule.format with
  | none => rw [hfmt] at h; cases h
  | some format =>
      rw [hfmt] at h
      dsimp only at h
      cases hconv : (if opts.convert then fmts.converters format else none) with
      | some c =>
          rw [hconv] at h
          dsimp only at h
          cases hcv : c v with
          | ok cv => rw [hcv] at h; cases h
          | error reason => rw [hcv] at h; rw [← Except.error.inj h]; rfl
      | none =>
          rw [hconv] at h
          dsimp only at h
          cases hval : fmts.validators format with
          | some f =>
              rw [hval] at h
              dsimp only at h
              split at h
              · cases h
              · rw [← Except.error.inj h]; rfl
          | none => rw [hval] at h; dsimp only at h; rw [← Except.error.inj h]; rfl

theorem isAllowedValue_not_sib {rule : Rule} {v : Value} {key : String} {e : VErr}
    (h : isAllowedValue rule v key = .error e) : isSiblingCheckErr e = false := by
  unfold isAllowedValue at h
  split at h
  · cases h
  · rw [← Except.error.inj h]; rfl

theorem isInRange_not_sib {rule : Rule} {v : Value} {key : String} {e : VErr}
    (h : isInRange rule v key = .error e) : isSiblingCheckErr e = false := by
  unfold isInRange at h
  split at h
  · split at h
    · rw [← Except.error.inj h]; rfl
    · cases h
  · cases h

theorem isMinLength_not_sib {rule : Rule} {v : Value} {key : String} {e : VErr}
    (h : isMinLength rule v key = .error e) : isSiblingCheckErr e = false := by
  unfold isMinLength at h
  split at h
  · split at h
    · rw [← Except.error.inj h]; rfl
    · cases h
  · cases h

theorem isMaxLength_not_sib {rule : Rule} {v : Value} {key : String} {e : VErr}
    (h : isMaxLength rule v key = .error e) : isSiblingCheckErr e = false := by
  unfold isMaxLength at h
  split at h
  · split at h
    · rw [← Except.error.inj h]; rfl
    · cases h
  · cases h

theorem isLength_not_sib {rule : Rule} {v : Value} {key : String} {e : VErr}
    (h : isLength rule v key = .error e) : isSiblingCheckErr e = false := by
  unfold isLength at h
  split at h
  · rw [← Except.error.inj h]; rfl
  · cases h

theorem findCondition_err_shape (opts : Options) (v : Option Value) (pv : Value)
    (key : String) : ∀ (rs : List Rule) (e : VErr),
    findCondition opts v pv key rs = .error e →
    ∃ name, e = .validation key (.invalidCondition name) := by
  intro rs
  induction rs with
  | nil => intro e h; cases h
  | cons r rest ih =>
      intro e h
      unfold findCondition at h
      split at h
      · dsimp only at h
        split at h
        · exact ⟨_, (Except.error.inj h).symm⟩
        · split at h
          · cases h
          · exact ih e h
      · exact ih e h

theorem selectConditionalRule_not_sib {opts : Options} {entry : RuleEntry}
    {v : Option Value} {pv : Value} {key : String} {e : VErr}
    (h : selectConditionalRule opts entry v pv key = .error e) :
    isSiblingCheckErr e = false := by
  unfold selectConditionalRule at h
  cases entry with
  | single r => cases h
  | alts rs =>
      dsimp only at h
      split at h
      · rename_i e2 heq
        have he : e2 = e := Except.error.inj h
        subst he
        obtain ⟨name, rfl⟩ := findCondition_err_shape opts v pv key rs e2 heq
        rfl
      · cases h
      · split at h <;> cases h

theorem findCondition_ok_flat (opts : Options) (v : Option Value) (pv : Value)
    (key : String) : ∀ (rs : List Rule) (r : Rule), rs.all flatRule = true →
    findCondition opts v pv key rs = .ok (some r) → flatRule r = true := by
  intro rs
  induction rs with
  | nil => intro r hall h; cases h
  | cons hd rest ih =>
      intro r hall h
      rw [List.all_cons, Bool.and_eq_true] at hall
      unfold findCondition at h
      split at h
      · dsimp only at h
        split at h
        · cases h
        · split at h
          · rw [← Option.some.inj (Except.ok.inj h)]
            exact hall.1
          · exact ih r hall.2 h
      · exact ih r hall.2 h

theorem selectConditionalRule_flat {opts : Options} {entry : RuleEntry}
    {v : Option Value} {pv : Value} {key : String} {r : Rule}
    (hflat : flatEntry entry = true)
    (h : selectConditionalRule opts entry v pv key = .ok r) : r.childRules = none := by
  cases entry with
  | single rr =>
      rw [← Except.ok.inj (h : Except.ok rr = Except.ok r)]
      simpa [flatEntry, flatRule, Option.isNone_iff_eq_none] using hflat
  | alts rs =>
      unfold selectConditionalRule at h
      dsimp only at h
      have hall : rs.all flatRule = true := by simpa [flatEntry] using hflat
      split at h
      · cases h
      · rename_i rr heq
        rw [← Except.ok.inj h]
        have := findCondition_ok_flat opts v pv key rs rr hall heq
        simpa [flatRule, Option.isNone_iff_eq_none] using this
      · split at h
        · rw [← Except.ok.inj h]; rfl
        · rename_i rr tl heq
          rw [← Except.ok.inj h]
          have hmem : rr ∈ rs.filter (fun q => q.condition.isNone) := by
            rw [heq]; exact List.mem_cons_self _ _
          have hmem2 : rr ∈ rs := List.mem_of_mem_filter hmem
          have := (List.all_eq_true.mp hall) rr hmem2
          simpa [flatRule, Option.isNone_iff_eq_none] using this

theorem lookupAssoc_flat : ∀ (rules : RuleMap) (n : String) (entry : RuleEntry),
    flatRules rules = true → lookupAssoc rules n = some entry → flatEntry entry = true := by
  intro rules
  induction rules with
  | nil => intro n entry hall h; cases h
  | cons hd rest ih =>
      intro n entry hall h
      rw [flatRules, List.all_cons, Bool.and_eq_true] at hall
      unfold lookupAssoc at h
      split at h
      · rw [← Option.some.inj h]; exact hall.1
      · exact ih n entry hall.2 h

theorem processSiblingRules_singleton (key : String) (rule : Rule) (rn : String)
    (v : Value) (g : Frame) : processSiblingRules key rule rn v [g] = .ok [g] := rfl

theorem processRule_singleton (fmts : Formats) (opts : Options) (fuel : Nat) (key : String)
    (rule : Rule) (rn : String) (value : Option Value) (f : Frame)
    (hflat : rule.childRules = none) :
    (∀ e, processRule fmts opts fuel key rule rn value [f] = .error e →
      isSiblingCheckErr e = false) ∧
    (∀ r, processRule fmts opts fuel key rule rn value [f] = .ok r → ∃ g, r.2.2 = [g]) := by
  cases fuel with
  | zero =>
      constructor
      · intro e h
        rw [processRule_zero] at h
        rw [← Except.error.inj h]
        rfl
      · intro r h
        rw [processRule_zero] at h
        cases h
  | succ fuel =>
      have hstack : ∃ g : Frame,
          (if rule.fixedChildLength then enableFixedChildLength [f] else [f]) = [g] := by
        cases rule.fixedChildLength
        · exact ⟨f, rfl⟩
        · exact ⟨{ f with fixedChildLength := some (-1) }, rfl⟩
      obtain ⟨g, hg⟩ := hstack
      constructor
      · intro e h
        rw [processRule_succ] at h
        simp only [prBody] at h
        rcases exceptBind_err.mp h with h1 | ⟨u1, hu1, h⟩
        · split at h1
          · exact isRequired_not_sib h1
          · cases h1
        · cases value with
          | none => simp [pure, Except.pure] at h
          | some v =>
              rcases exceptBind_err.mp h with h2 | ⟨fc, hfc, h⟩
              · split at h2
                · exact isCorrectFormat_not_sib h2
                · cases h2
              · rcases exceptBind_err.mp h with h3 | ⟨u2, hu2, h⟩
                · split at h3
                  · exact isAllowedValue_not_sib h3
                  · cases h3
                · rcases exceptBind_err.mp h with h4 | ⟨u3, hu3, h⟩
                  · split at h4
                    · exact isInRange_not_sib h4
                    · cases h4
                  · rcases exceptBind_err.mp h with h5 | ⟨u4, hu4, h⟩
                    · split at h5
                      · exact isMinLength_not_sib h5
                      · cases h5
                    · rcases exceptBind_err.mp h with h6 | ⟨u5, hu5, h⟩
                      · split at h6
                        · exact isMaxLength_not_sib h6
                        · cases h6
                      · rcases exceptBind_err.mp h with h7 | ⟨u6, hu6, h⟩
                        · split at h7
                          · exact isLength_not_sib h7
                          · cases h7
                        · rcases exceptBind_err.mp h with h8 | ⟨stack2, hsib, h⟩
                          · rw [hg, processSiblingRules_singleton] at h8
                            cases h8
                          · rw [hflat] at h
                            simp [pure, Except.pure] at h
      · intro r h
        rw [processRule_succ] at h
        simp only [prBody] at h
        rcases exceptBind_ok.mp h with ⟨u1, hu1, h⟩
        cases value with
        | none =>
            simp only [pure, Except.pure, Except.ok.injEq] at h
            exact ⟨f, by rw [← h]⟩
        | some v =>
            rcases exceptBind_ok.mp h with ⟨fc, hfc, h⟩
            rcases exceptBind_ok.mp h with ⟨u2, hu2, h⟩
            rcases exceptBind_ok.mp h with ⟨u3, hu3, h⟩
            rcases exceptBind_ok.mp h with ⟨u4, hu4, h⟩
            rcases exceptBind_ok.mp h with ⟨u5, hu5, h⟩
            rcases exceptBind_ok.mp h with ⟨u6, hu6, h⟩
            rcases exceptBind_ok.mp h with ⟨stack2, hsib, h⟩
            rw [hg, processSiblingRules_singleton] at hsib
            rw [hflat] at h
            simp only [pure, Except.pure, Except.ok.injEq] at h
            refine ⟨g, ?_⟩
            rw [← h]
            exact (Except.ok.inj hsib).symm

theorem processItems_singleton (fmts : Formats) (opts : Options) : ∀ (fuel : Nat)
    (rules : RuleMap) (pk : String) (hm : Bool) (items : List Item) (parent : Value)
    (f : Frame) (e : VErr), flatRules rules = true →
    processItems fmts opts fuel rules pk hm items parent [f] = .error e →
    isSiblingCheckErr e = false := by
  intro fuel
  induction fuel with
  | zero =>
      intro rules pk hm items parent f e hflat h
      rw [processItems_zero] at h
      rw [← Except.error.inj h]
      rfl
  | succ fuel ih =>
      intro rules pk hm items parent f e hflat h
      rw [processItems_succ] at h
      cases items with
      | nil => simp [piBody] at h
      | cons item rest =>
          obtain ⟨ik, rno⟩ := item
          simp only [piBody] at h
          cases hlr : lookupRule rules rno with
          | none =>
              rw [hlr] at h
              dsimp only at h
              rw [← Except.error.inj h]
              rfl
          | some entry =>
              rw [hlr] at h
              dsimp only at h
              rcases exceptBind_err.mp h with h1 | ⟨rule, hsel, h⟩
              · exact selectConditionalRule_not_sib h1
              · have hentryflat : flatEntry entry = true := by
                  cases rno with
                  | none => simp [lookupRule] at hlr
                  | some n => exact lookupAssoc_flat rules n entry hflat hlr
                have hruleflat : rule.childRules = none :=
                  selectConditionalRule_flat hentryflat hsel
                rcases exceptBind_err.mp h with h2 | ⟨r, hpr, h⟩
                · exact (processRule_singleton fmts opts fuel _ rule _ _ f hruleflat).1 e h2
                · obtain ⟨g, hgg⟩ :=
                    (processRule_singleton fmts opts fuel _ rule _ _ f hruleflat).2 r hpr
                  rw [hgg] at h
                  exact ih rules pk hm rest _ g e hflat h

/-- C10: under a Rule Map whose entries carry no nested Rule Map (so only
root-level siblings are ever processed), `validate` never raises any of the
sibling-check errors — no ordering violation and no fixed-child-length
mismatch — whatever flags the rules carry: the root frame has no frame one
level up, so `processSiblingRules` returns silently. -/
theorem c10_root_siblings_skip_sibling_checks (fmts : Formats) (opts : Options)
    (fuel : Nat) (rules : RuleMap) (data : Value) (e : VErr)
    (hflat : flatRules rules = true)
    (h : validate fmts opts fuel rules data = .error e) :
    isSiblingCheckErr e = false := by
  unfold validate at h
  cases hx : processChildRules fmts opts fuel ("") rules data [] with
  | ok pr =>
      rw [hx] at h
      simp [Except.map] at h
  | error e2 =>
      rw [hx] at h
      simp only [Except.map] at h
      have he : e2 = e := Except.error.inj h
      subst he
      cases fuel with
      | zero =>
          rw [processChildRules_zero] at hx
          rw [← Except.error.inj hx]
          rfl
      | succ fuel =>
          rw [processChildRules_succ] at hx
          simp only [pcrBody] at hx
          split at hx
          · rename_i e3 heq
            have h3 : e3 = e2 := Except.error.inj hx
            subst h3
            exact processItems_singleton fmts opts fuel rules _ _ _ _ Frame.empty _ hflat heq
          · cases hx

/-- Witness for C10: a flat rule with `required` and every sibling flag over an
empty root object raises the required-missing error, which is not a
sibling-check error. -/
theorem c10_root_siblings_skip_sibling_checks_witness :
    isSiblingCheckErr (.validation ("a") (.requiredMissing)) = false :=
  c10_root_siblings_skip_sibling_checks srcFormats {} 20 c10Rules (.obj [])
    (.validation ("a") (.requiredMissing)) rfl rfl
